import Mathlib

/-!
Verification of the SecureCode security-testing tool (src/app.py) against its
natural-language specification.

The development shallowly embeds the original logic of the program:

* `parse_vulnerabilities` (src/app.py lines 49-55): a faithful model of
  `re.findall` applied to the fixed pattern
  `>> Issue: (.*?)\n\s+Severity: (.*?)\s+Confidence: (.*?)\n\s+Location: (.*?)\n`
  with `re.DOTALL`.  Lazy groups are modelled by scanning for the shortest
  viable split (candidate positions tried left to right, exactly the
  backtracking preference order of the Python engine); each greedy `\s+` that
  is followed by a literal starting with a non-whitespace character can only
  match the maximal whitespace run, which makes it deterministic.
* the session-state bookkeeping of `main` (scan reset, per-issue checkbox
  ensure/assign, the cached `issues_selected` / `show_resolve_button` flags,
  and the resolve action), modelled as explicit step functions on a state
  record; one script run (one user interaction) is one function application,
  as prescribed by the single-threaded re-render model of the host
  framework.  The model includes the framework's widget mechanics for the
  keyed checkboxes: a widget rendered with the same key and label as in the
  previous run returns its retained state rather than the passed value,
  widget state of widgets not rendered during a run is dropped at its end,
  and an `on_change` callback runs after the widget value is committed but
  before the script body re-executes — so it reads the mapping as the
  previous run's line-218 assignments left it.
* the history filter and relative-date bucketing of
  `show_recent_codes_on_main`, with calendar dates modelled as day numbers
  (the source compares `date` values obtained from timestamps; a proleptic
  Gregorian day count converts concrete calendar dates).

Strings are modelled as `List Char`; Python `str.lower` and the `\s` class
are modelled at ASCII granularity (all inputs of the program's scanner
collaborator are ASCII).
-/

/-- Python `\s` on ASCII: space, tab, newline, carriage return, vertical tab,
form feed. -/
def isWS (c : Char) : Bool :=
  c = ' ' || c = '\t' || c = '\n' || c = '\r' || c = '\x0b' || c = '\x0c'

/-- Strip an expected literal from the front of the input, returning the
remainder on success. -/
def stripLit : List Char → List Char → Option (List Char)
  | [], l => some l
  | _ :: _, [] => none
  | c :: cs, x :: xs => if c = x then stripLit cs xs else none

/-- Match `\s+lit` at the front of the input where `lit` starts with a
non-whitespace character: the greedy `\s+` can only match the maximal
whitespace run (shorter runs leave a whitespace character where `lit`
expects its non-whitespace head). -/
def afterWSPlus (lit l : List Char) : Option (List Char) :=
  if l.takeWhile isWS = ([] : List Char) then none
  else stripLit lit (l.dropWhile isWS)

/-- The four literals of the pattern. -/
def issueLit : List Char := ">> Issue: ".toList

def sevLit : List Char := "Severity: ".toList

def confLit : List Char := "Confidence: ".toList

def locLit : List Char := "Location: ".toList

/-- One issue record: the four captured groups of a match. -/
structure RawIssue where
  desc : List Char
  sev : List Char
  conf : List Char
  loc : List Char
deriving DecidableEq

/-- Match `(.*?)\n` (the `Location` group followed by the final newline of the
pattern): the lazy group stops at the first newline. Returns the capture and
the remainder after the newline. -/
def scanLoc : List Char → Option (List Char × List Char)
  | [] => none
  | c :: rest =>
    if c = '\n' then some ([], rest)
    else
      match scanLoc rest with
      | some (loc, r) => some (c :: loc, r)
      | none => none

/-- Match `\s+Location: (.*?)\n`. -/
def tryLoc (l : List Char) : Option (List Char × List Char) :=
  match afterWSPlus locLit l with
  | some r => scanLoc r
  | none => none

/-- Match `(.*?)\n\s+Location: (.*?)\n` (the `Confidence` group and the tail
of the pattern): the lazy group tries each newline of the input from the
left and stops at the first one after which the tail matches. -/
def scanConf : List Char → Option (List Char × List Char × List Char)
  | [] => none
  | c :: rest =>
    let deeper : Option (List Char × List Char × List Char) :=
      match scanConf rest with
      | some (conf, loc, r) => some (c :: conf, loc, r)
      | none => none
    if c = '\n' then
      match tryLoc rest with
      | some (loc, r) => some ([], loc, r)
      | none => deeper
    else deeper

/-- Match `(.*?)\s+Confidence: ` followed by the `scanConf` tail (the
`Severity` group onwards): the lazy group tries each position from the left;
a position is viable when a nonempty whitespace run followed by
`Confidence: ` starts there and the rest of the pattern matches after it. -/
def scanSev : List Char → Option (List Char × List Char × List Char × List Char)
  | [] => none
  | c :: rest =>
    let deeper : Option (List Char × List Char × List Char × List Char) :=
      match scanSev rest with
      | some (sev, conf, loc, r) => some (c :: sev, conf, loc, r)
      | none => none
    if isWS c then
      match afterWSPlus confLit (c :: rest) with
      | some r1 =>
        match scanConf r1 with
        | some (conf, loc, r2) => some ([], conf, loc, r2)
        | none => deeper
      | none => deeper
    else deeper

/-- Match `(.*?)\n\s+Severity: ` followed by the rest of the pattern (the
`Issue` description group onwards). -/
def scanDesc : List Char → Option (RawIssue × List Char)
  | [] => none
  | c :: rest =>
    let deeper : Option (RawIssue × List Char) :=
      match scanDesc rest with
      | some (iss, r) => some ({ iss with desc := c :: iss.desc }, r)
      | none => none
    if c = '\n' then
      match afterWSPlus sevLit rest with
      | some r1 =>
        match scanSev r1 with
        | some (sev, conf, loc, r2) => some (⟨[], sev, conf, loc⟩, r2)
        | none => deeper
      | none => deeper
    else deeper

/-- Attempt the whole pattern at the current position. -/
def matchAt (l : List Char) : Option (RawIssue × List Char) :=
  match stripLit issueLit l with
  | some r => scanDesc r
  | none => none

/-- The scanner of `re.findall`: try the pattern at every position from the
left; on a match, emit the captures and resume after the match
(non-overlapping); otherwise advance one character.  Fuel is the length of
the input (a match always consumes at least one character). -/
def findAux : Nat → List Char → List RawIssue
  | 0, _ => []
  | _ + 1, [] => []
  | n + 1, c :: rest =>
    match matchAt (c :: rest) with
    | some (iss, r) => iss :: findAux n r
    | none => findAux n rest

/-- All matches of the issue pattern, in order of first occurrence. -/
def findIssues (l : List Char) : List RawIssue :=
  findAux l.length l

/-- The f-string of src/app.py line 54. -/
def formatIssue (i : RawIssue) : List Char :=
  "Issue: ".toList ++ i.desc ++ '\n' :: ("Severity: ".toList ++ i.sev
    ++ " | Confidence: ".toList ++ i.conf ++ " | Location: ".toList ++ i.loc)

/-- src/app.py lines 49-55: parse individual issues from the vulnerability
report and render each as a display string. -/
def parse_vulnerabilities (vulnerability_report : List Char) : List (List Char) :=
  (findIssues vulnerability_report).map formatIssue

/-- No leading and no trailing whitespace. -/
def trimmedWS (l : List Char) : Bool :=
  (match l.head? with
   | none => true
   | some c => !isWS c)
  && (match l.getLast? with
      | none => true
      | some c => !isWS c)

/-- One well-formed occurrence of the issue pattern inside a report, in the
shape emitted by the scanner collaborator: separator text, the marker line
with the description, an indented severity/confidence line, and an indented
location line.  `ind1`, `gap` and `ind2` are the structural whitespace runs
of the block. -/
structure BlockShape where
  pre : List Char
  ind1 : List Char
  gap : List Char
  ind2 : List Char
  issue : RawIssue
deriving DecidableEq

/-- The text of the block itself. -/
def BlockShape.body (b : BlockShape) : List Char :=
  issueLit ++ (b.issue.desc ++ '\n' :: (b.ind1 ++ (sevLit ++ (b.issue.sev
    ++ (b.gap ++ (confLit ++ (b.issue.conf ++ '\n' :: (b.ind2 ++ (locLit
      ++ (b.issue.loc ++ ['\n']))))))))))

/-- Separator text followed by the block. -/
def BlockShape.render (b : BlockShape) : List Char :=
  b.pre ++ b.body

/-- Well-formedness of one occurrence: the separator contains no `>` (so it
cannot contain or complete the marker), the structural whitespace runs are
nonempty whitespace, the description spans a single line, severity carries
no whitespace, confidence and location span single lines, and all four
fields are free of leading/trailing whitespace. -/
def BlockShape.Wf (b : BlockShape) : Prop :=
  (∀ c ∈ b.pre, c ≠ '>') ∧
  (∀ c ∈ b.ind1, isWS c = true) ∧ b.ind1 ≠ [] ∧
  (∀ c ∈ b.gap, isWS c = true) ∧ b.gap ≠ [] ∧
  (∀ c ∈ b.ind2, isWS c = true) ∧ b.ind2 ≠ [] ∧
  (∀ c ∈ b.issue.desc, c ≠ '\n') ∧ trimmedWS b.issue.desc = true ∧
  (∀ c ∈ b.issue.sev, isWS c = false) ∧ trimmedWS b.issue.sev = true ∧
  (∀ c ∈ b.issue.conf, c ≠ '\n') ∧ trimmedWS b.issue.conf = true ∧
  (∀ c ∈ b.issue.loc, c ≠ '\n') ∧ trimmedWS b.issue.loc = true

instance (b : BlockShape) : Decidable b.Wf := by
  unfold BlockShape.Wf
  infer_instance

/-- The text of the block with its final newline missing: the `Location:`
line is not newline-terminated. -/
def BlockShape.bodyTrunc (b : BlockShape) : List Char :=
  issueLit ++ (b.issue.desc ++ '\n' :: (b.ind1 ++ (sevLit ++ (b.issue.sev
    ++ (b.gap ++ (confLit ++ (b.issue.conf ++ '\n' :: (b.ind2 ++ (locLit
      ++ b.issue.loc)))))))))

/-- Well-formedness plus single-line structural whitespace runs, so the
truncated block contains exactly its two structural newlines. -/
def BlockShape.WfStrict (b : BlockShape) : Prop :=
  b.Wf ∧ (∀ c ∈ b.ind1, c ≠ '\n') ∧ (∀ c ∈ b.gap, c ≠ '\n') ∧
    (∀ c ∈ b.ind2, c ≠ '\n')

instance (b : BlockShape) : Decidable b.WfStrict := by
  unfold BlockShape.WfStrict
  infer_instance

/-- No newline of the text is followed by a successful
`\s+Location: (.*?)\n` match — the condition under which the lazy
backtracking of the whole pattern is doomed wherever it starts. -/
def NoLocTail (X : List Char) : Prop :=
  ∀ a b, X = a ++ '\n' :: b → tryLoc b = none

/-- A report made of `k` well-formed occurrences and a trailing tail. -/
def renderReport : List BlockShape → List Char → List Char
  | [], tail => tail
  | b :: bs, tail => b.render ++ renderReport bs tail

/-- Two concrete well-formed occurrences used to witness C2. -/
def c2Blocks : List BlockShape :=
  [⟨"Run started\n".toList, "   ".toList, "   ".toList, "   ".toList,
    ⟨"[B105] hardcoded password".toList, "High".toList, "Medium".toList,
     "app.py:10".toList⟩⟩,
   ⟨"--------------------\n".toList, " ".toList, "  ".toList, " ".toList,
    ⟨"assert detected".toList, "Low".toList, "High".toList,
     "app.py:42".toList⟩⟩]

def c2Tail : List Char := "\nCode scanned: 12 lines\n".toList

def c8Clean : List Char := "Run started\nNo issues identified.\n".toList

def c10Blocks : List BlockShape :=
  [⟨"Run started\n".toList, "   ".toList, "   ".toList, "   ".toList,
    ⟨"exec detected".toList, "High".toList, "High".toList, "app.py:3".toList⟩⟩]

/-- A concrete final block whose `Location:` line is not terminated by a
newline, used to witness C10. -/
def c10Final : BlockShape :=
  ⟨"\n".toList, "   ".toList, "   ".toList, "   ".toList,
   ⟨"weak md5 hash".toList, "Medium".toList, "High".toList, "app.py:7".toList⟩⟩

/-- ASCII case lowering, modelling Python `str.lower` on ASCII input. -/
def lowerChar (c : Char) : Char :=
  if 'A' ≤ c ∧ c ≤ 'Z' then Char.ofNat (c.toNat + 32) else c

def lowerStr (l : List Char) : List Char := l.map lowerChar

/-- Python substring containment (the `in` operator on strings). -/
def occursIn (n : List Char) : List Char → Bool
  | [] => n.isEmpty
  | c :: rest => n.isPrefixOf (c :: rest) || occursIn n rest

/-- A calendar day paired with a time of day (microseconds), modelling a
Python `datetime` as far as the operations used by the source go. -/
structure PyDateTime where
  day : Int
  micro : Nat
deriving DecidableEq

/-- The `.date()` component of a datetime. -/
def PyDateTime.date (t : PyDateTime) : Int := t.day

/-- `datetime.combine(d, datetime.min.time())` (src/app.py line 84). -/
def combineMinTime (d : Int) : PyDateTime := ⟨d, 0⟩

/-- `datetime.combine(d, datetime.max.time())` (src/app.py line 86). -/
def combineMaxTime (d : Int) : PyDateTime := ⟨d, 86399999999⟩

/-- One persisted submission row as consumed by the history view;
`date` is the calendar date parsed out of `created_at` (line 106-107). -/
structure Submission where
  title : List Char
  input_code : List Char
  output_code : Option (List Char)
  date : Int
deriving DecidableEq

/-- The text condition of src/app.py line 109: empty query, or the lowered
query occurs in the lowered title or in the lowered input code. -/
def textMatch (search_query : List Char) (s : Submission) : Bool :=
  search_query.isEmpty
    || occursIn (lowerStr search_query) (lowerStr s.title)
    || occursIn (lowerStr search_query) (lowerStr s.input_code)

/-- The full filter of src/app.py lines 109-110, including the
normalization of lines 83-86: the optional start date is combined with the
minimal time of day, the optional end date with the maximal one, and the
submission's calendar date is compared against their `.date()` values. -/
def keepSubmission (search_query : List Char) (start_date end_date : Option Int)
    (s : Submission) : Bool :=
  let sdn := start_date.map combineMinTime
  let edn := end_date.map combineMaxTime
  textMatch search_query s
    && ((match sdn with
         | none => true
         | some sd => decide (sd.date ≤ s.date))
        && (match edn with
            | none => true
            | some ed => decide (s.date ≤ ed.date)))

/-- The filter in the words of the specification: keep iff (empty query or
case-insensitive substring of title or of input code) and (start absent or
date at least the start day) and (end absent or date at most the end day). -/
def specKeep (q : List Char) (sa se : Option Int) (s : Submission) : Bool :=
  (q.isEmpty || occursIn (lowerStr q) (lowerStr s.title)
    || occursIn (lowerStr q) (lowerStr s.input_code))
  && (match sa with
      | none => true
      | some a => decide (a ≤ s.date))
  && (match se with
      | none => true
      | some b => decide (s.date ≤ b))

/-- The bucket ladder of src/app.py lines 112-126 (with the boundary values
of lines 93-95). -/
def bucketOf (today submission_date : Int) : String :=
  let yesterday := today - 1
  let last_7_days := today - 7
  let last_30_days := today - 30
  if submission_date = today then "Today"
  else if submission_date = yesterday then "Yesterday"
  else if last_7_days ≤ submission_date ∧ submission_date < today then
    "Previous 7 Days"
  else if last_30_days ≤ submission_date ∧ submission_date < last_7_days then
    "Previous 30 Days"
  else "Older"

def bucketLabels : List String :=
  ["Today", "Yesterday", "Previous 7 Days", "Previous 30 Days", "Older"]

/-- The spec's ladder: label/range pairs in the fixed order. -/
def bucketConds (today sd : Int) : List (String × Bool) :=
  [("Today", decide (sd = today)),
   ("Yesterday", decide (sd = today - 1)),
   ("Previous 7 Days", decide (today - 7 ≤ sd ∧ sd < today)),
   ("Previous 30 Days", decide (today - 30 ≤ sd ∧ sd < today - 7)),
   ("Older", true)]

/-- First matching bucket in the fixed ladder order, per the spec. -/
def specBucket (today sd : Int) : String :=
  match (bucketConds today sd).find? (fun p => p.2) with
  | some p => p.1
  | none => "Older"

/-- The per-label content of `grouped_codes` (lines 97-126): a submission
is appended to a bucket iff it survives the filter and the ladder assigns
it that label; input order is preserved. -/
def groupedCodes (today : Int) (q : List Char) (sa se : Option Int)
    (subs : List Submission) (label : String) : List Submission :=
  subs.filter (fun s => keepSubmission q sa se s && (bucketOf today s.date == label))

/-- Day count of a proleptic Gregorian date; only differences and
comparisons between day counts are used. -/
def civilToDays (y m d : Nat) : Nat :=
  let y' := if m ≤ 2 then y - 1 else y
  let era := y' / 400
  let yoe := y' % 400
  let mp := if 2 < m then m - 3 else m + 9
  let doy := (153 * mp + 2) / 5 + d - 1
  let doe := yoe * 365 + yoe / 4 - yoe / 100 + doy
  era * 146097 + doe

def dayOf (y m d : Nat) : Int := (civilToDays y m d : Int)

def c3Sub : Submission := ⟨"demo".toList, "print(1)".toList, none, dayOf 2024 6 10⟩

def c4Sub : Submission := ⟨"My Demo".toList, "x = EVAL(y)".toList, none, dayOf 2024 6 10⟩

structure AppState where
  vulnerability_report : List Char
  last_user_code : List Char
  fixed_code : List Char
  issue_resolved : Bool
  selected_issues : List (Nat × Bool)
  issues_selected : Bool
  show_resolve_button : Bool
  scan_complete : Bool
deriving DecidableEq

/-- The initial values of src/app.py lines 27-41. -/
def initState : AppState :=
  { vulnerability_report := []
    last_user_code := []
    fixed_code := []
    issue_resolved := false
    selected_issues := []
    issues_selected := false
    show_resolve_button := false
    scan_complete := false }

/-- The session state together with the checkbox widget store and the rows
persisted through `user_model.save_code` (title, input code, optional
output code).  `widgets` holds, for each checkbox key `issue_i` rendered in
the previous run, the label it was rendered with and its current checked
state; it also lives in `st.session_state` but is managed by the framework,
not by the lines of `main` — in particular line 187 does not touch it. -/
structure World where
  session : AppState
  widgets : List (Nat × (List Char × Bool))
  saved : List (List Char × List Char × Option (List Char))
deriving DecidableEq

def initWorld : World := ⟨initState, [], []⟩

/-- src/app.py lines 58-63: recompute the aggregate selection flag and
the button-visibility flag from the current mapping. -/
def update_issues_selected (s : AppState) : AppState :=
  let sel := s.selected_issues.any (fun p => p.2)
  { s with issues_selected := sel, show_resolve_button := sel }

/-- Python dict assignment `m[key] = v`: overwrite the existing entry in
place, append a new entry otherwise. -/
def setKey : List (Nat × Bool) → Nat → Bool → List (Nat × Bool)
  | [], i, v => [(i, v)]
  | p :: rest, i, v => if p.1 = i then (i, v) :: rest else p :: setKey rest i v

/-- Lines 214-215: create the entry defaulted to false when absent. -/
def ensureKey (m : List (Nat × Bool)) (i : Nat) : List (Nat × Bool) :=
  match m.lookup i with
  | some _ => m
  | none => m ++ [(i, false)]

/-- The value `st.checkbox(label, value, key)` returns at line 218: when a
widget with this key survives from the previous run with the same label,
its retained state (the passed value is ignored); otherwise the widget is
new and returns the passed value. -/
def checkboxResult (ws : List (Nat × (List Char × Bool))) (i : Nat)
    (label : List Char) (v : Bool) : Bool :=
  match ws.lookup i with
  | some (lbl, b) => if lbl = label then b else v
  | none => v

/-- Replace the widget entry for key `i` (append when absent). -/
def wsSetEntry : List (Nat × (List Char × Bool)) → Nat → List Char → Bool →
    List (Nat × (List Char × Bool))
  | [], i, lbl, v => [(i, (lbl, v))]
  | p :: rest, i, lbl, v =>
    if p.1 = i then (i, (lbl, v)) :: rest else p :: wsSetEntry rest i lbl v

/-- The widget store after `st.checkbox` at line 218: a surviving widget
with the same label keeps its state; a widget whose label changed, or a
fresh key, is (re)created with the passed value. -/
def checkboxCommit (ws : List (Nat × (List Char × Bool))) (i : Nat)
    (label : List Char) (v : Bool) : List (Nat × (List Char × Bool)) :=
  match ws.lookup i with
  | some (lbl, _) => if lbl = label then ws else wsSetEntry ws i label v
  | none => ws ++ [(i, (label, v))]

/-- Set the checked state of an existing widget (the user's toggle,
committed by the framework before the rerun starts). -/
def wsSetVal : List (Nat × (List Char × Bool)) → Nat → Bool →
    List (Nat × (List Char × Bool))
  | [], _, _ => []
  | p :: rest, i, v =>
    if p.1 = i then (i, (p.2.1, v)) :: rest else p :: wsSetVal rest i v

/-- The loop of lines 212-221 during one script run: for issue `i` the
mapping entry is ensured (default false, lines 214-215), and line 218
assigns the checkbox's return value — the retained widget state when a
widget with the same label survives, the ensured entry's value
otherwise — while the widget store records the rendered checkbox. -/
def renderLoop : List (List Char) → Nat → List (Nat × Bool) →
    List (Nat × (List Char × Bool)) →
    List (Nat × Bool) × List (Nat × (List Char × Bool))
  | [], _, m, ws => (m, ws)
  | issue :: rest, i, m, ws =>
    renderLoop rest (i + 1)
      (setKey (ensureKey m i) i
        (checkboxResult ws i issue (((ensureKey m i).lookup i).getD false)))
      (checkboxCommit ws i issue (((ensureKey m i).lookup i).getD false))

/-- Widget-state entries of widgets not rendered during a run are dropped
by the framework at the end of the run. -/
def pruneWidgets (ws : List (Nat × (List Char × Bool))) (k : Nat) :
    List (Nat × (List Char × Bool)) :=
  ws.filter (fun p => p.1 < k)

/-- The issue-list section of one script run (lines 205-221): when the
report is empty nothing is rendered (so all checkbox widget state is
dropped); otherwise the loop body runs once per parsed issue, in index
order, and widget state outside the rendered key range is dropped. -/
def renderStep (w : World) : World :=
  if w.session.vulnerability_report = [] then { w with widgets := [] }
  else
    { w with
        session := { w.session with selected_issues :=
          (renderLoop (parse_vulnerabilities w.session.vulnerability_report) 0
            w.session.selected_issues w.widgets).1 }
        widgets := pruneWidgets
          ((renderLoop (parse_vulnerabilities w.session.vulnerability_report) 0
            w.session.selected_issues w.widgets).2)
          (parse_vulnerabilities w.session.vulnerability_report).length }

/-- The user toggles checkbox `i` to `v` (with a completed scan on
display, so the scan branch of line 181 is not re-entered).  The
framework first commits the new widget value, then runs the `on_change`
callback `update_issues_selected` — which therefore reads the mapping as
line 218 of the previous run left it, before this toggle — and only then
re-executes the script body, whose issue loop writes the updated widget
state into the mapping. -/
def toggleStep (i : Nat) (v : Bool) (w : World) : World :=
  renderStep { w with
    session := update_issues_selected w.session
    widgets := wsSetVal w.widgets i v }

/-- Lines 181-202: a scan is triggered with the given code, title and
scanner result.  When both code and title are nonempty (line 183) the
previous report is cleared (185), the selection mapping is reset (187),
the scan status is reset (189), the code is remembered (192), the
scanner's report is stored and the scan marked complete (195-197), and
the submission is persisted with an absent output (199-202). -/
def scanStep (user_code title report : List Char) (user_id : Option Nat)
    (w : World) : World :=
  if user_code ≠ [] ∧ title ≠ [] then
    let s1 := { w.session with vulnerability_report := [] }
    let s2 := { s1 with selected_issues := [] }
    let s3 := { s2 with scan_complete := false }
    let s4 := { s3 with last_user_code := user_code }
    let s5 := { s4 with vulnerability_report := report, scan_complete := true,
                        issue_resolved := false }
    { session := s5,
      widgets := w.widgets,
      saved := match user_id with
        | some _ => w.saved ++ [(title, user_code, none)]
        | none => w.saved }
  else w

/-- The generator of lines 226-229: every index of the parsed issue list
is looked up in the mapping (a missing key raises `KeyError`, modelled as
`none`) and the issues whose entry is true are collected in index
order. -/
def selectedOnes : List (List Char) → Nat → List (Nat × Bool) →
    Option (List (List Char))
  | [], _, _ => some []
  | iss :: rest, i, m =>
    match m.lookup i with
    | none => none
    | some b =>
      match selectedOnes rest (i + 1) m with
      | none => none
      | some t => some (if b then iss :: t else t)

/-- Python `"\n".join`. -/
def joinNL : List (List Char) → List Char
  | [] => []
  | [x] => x
  | x :: y :: ys => x ++ '\n' :: joinNL (y :: ys)

/-- The instruction text handed to the rewrite collaborator
(`selected_issues_text`, lines 226-229). -/
def selectedInstr (s : AppState) : Option (List Char) :=
  Option.map joinNL
    (selectedOnes (parse_vulnerabilities s.vulnerability_report) 0 s.selected_issues)

/-- The gate of line 224 deciding whether the resolve button is rendered:
`st.session_state.get('show_resolve_button', False) and
st.session_state['issues_selected']`. -/
def gateOpen (s : AppState) : Bool :=
  s.show_resolve_button && s.issues_selected

/-- At least one entry of the selection mapping is true. -/
def anySelected (s : AppState) : Bool :=
  s.selected_issues.any (fun p => p.2)

/-- Lines 224-240: the resolve interaction.  Under the gate of line 224,
the instruction text is built (226-229), the rewrite collaborator is
applied to the remembered code and the text (232-233), and on success the
fixed code is stored, `issue_resolved` is set, and the submission is
persisted with the output (234-240).  An exception — a `KeyError` while
building the text or a failure inside the collaborator — aborts the run
before any session mutation, leaving the state as it was. -/
def resolveStep (title : List Char) (user_id : Option Nat)
    (rw : List Char → List Char → Except (List Char) (List Char))
    (w : World) : World :=
  if w.session.show_resolve_button ∧ w.session.issues_selected then
    match selectedInstr w.session with
    | none => w
    | some txt =>
      match rw w.session.last_user_code txt with
      | Except.error _ => w
      | Except.ok fixed =>
        { session := { w.session with fixed_code := fixed, issue_resolved := true },
          widgets := w.widgets,
          saved := match user_id with
            | some _ => w.saved ++ [(title, w.session.last_user_code, some fixed)]
            | none => w.saved }
  else w

/-! ### Lookup behaviour of the selection mapping operations -/

/-- A session state with a two-issue report, an existing true entry at
index 0 and no retained widget state. -/
def c9World : World :=
  ⟨{ initState with
      vulnerability_report := (">> Issue: a\n Severity: H Confidence: M\n Location: x\n>> Issue: b\n Severity: L Confidence: C\n Location: y\n").toList
      selected_issues := [(0, true)] }, [], []⟩

def c9Report : List Char :=
  (">> Issue: weak hash\n   Severity: Medium   Confidence: High\n   Location: a.py:7\n").toList

/-- A reachable trace for C9: scan, render, select issue 0, then re-scan
the identical code — the mapping is cleared while the widget keyed
issue_0 (same label in the new render) retains its checked state. -/
def c9Trace : World :=
  scanStep "h = md5()".toList "t9".toList c9Report none
    (toggleStep 0 true
      (renderStep (scanStep "h = md5()".toList "t9".toList c9Report none initWorld)))

def c5Report : List Char :=
  (">> Issue: a\n Severity: H Confidence: M\n Location: x\n").toList

/-- A reachable trace for C5: scan, render, select issue 0, then re-scan
the identical code, leaving the cleared mapping to be repopulated by the
next render from retained widget state. -/
def c5Trace : World :=
  scanStep "pw = 1".toList "t5".toList c5Report none
    (toggleStep 0 true
      (renderStep (scanStep "pw = 1".toList "t5".toList c5Report none initWorld)))

def c6State : AppState :=
  { initState with
      vulnerability_report := (">> Issue: a\n Severity: H Confidence: M\n Location: x\n>> Issue: b\n Severity: L Confidence: C\n Location: y\n").toList
      selected_issues := [(0, true), (1, true)] }

def c1Report : List Char :=
  (">> Issue: hardcoded password\n   Severity: High   Confidence: High\n   Location: app.py:10\n").toList

/-- A reachable state for C1: scan a one-issue report, render, then check
the issue.  The `on_change` callback ran before the rerun's assignment,
so it computed the flags from the pre-toggle mapping (all false). -/
def c1T1 : World :=
  toggleStep 0 true
    (renderStep (scanStep "pw = 1".toList "t1".toList c1Report none initWorld))

/-- One step further: the user unchecks the issue.  The callback now sees
the previous run's mapping (entry true) and sets the flags, while the
rerun writes the unchecked value into the mapping. -/
def c1T2 : World :=
  toggleStep 0 false c1T1

example :
    findIssues (">> Issue: desc\n   Severity: High   Confidence: Med\n   Location: a.py:1\n").toList
      = [⟨"desc".toList, "High".toList, "Med".toList, "a.py:1".toList⟩] := by decide

example :
    findIssues ("head\n>> Issue: a\n Severity: H Confidence: M\n Location: x\n----\n>> Issue: b\n Severity: L Confidence: C\n Location: y\n").toList
      = [⟨"a".toList, "H".toList, "M".toList, "x".toList⟩,
         ⟨"b".toList, "L".toList, "C".toList, "y".toList⟩] := by decide

example :
    findIssues (">> Issue: d\n   Severity: H   Confidence: M\n   Location: a.py:1").toList
      = [] := by decide

example :
    findIssues (">> Issue: a\n  b\n  Severity: H  Confidence: M\n  Location: x\n").toList
      = [⟨('a' :: '\n' :: ' ' :: ' ' :: ['b']), "H".toList, "M".toList, "x".toList⟩] := by decide

/-! ### Length bookkeeping: every match consumes at least one character -/

theorem stripLit_length : ∀ lit l r, stripLit lit l = some r →
    r.length + lit.length = l.length := by
  intro lit
  induction lit with
  | nil => intro l r h; simp [stripLit] at h; subst h; simp
  | cons c cs ih =>
    intro l r h
    cases l with
    | nil => simp [stripLit] at h
    | cons x xs =>
      simp only [stripLit] at h
      split at h
      · have := ih xs r h
        simp [List.length_cons]
        omega
      · exact absurd h (by simp)

theorem dropWhileWS_length (p : Char → Bool) :
    ∀ l : List Char, (l.dropWhile p).length ≤ l.length := by
  intro l
  induction l with
  | nil => simp
  | cons c rest ih =>
    by_cases hc : p c
    · simp [List.dropWhile, hc]; omega
    · simp [List.dropWhile, hc]

theorem afterWSPlus_length : ∀ lit l r, afterWSPlus lit l = some r →
    r.length ≤ l.length := by
  intro lit l r h
  simp only [afterWSPlus] at h
  split at h
  · exact absurd h (by simp)
  · have h1 := stripLit_length _ _ _ h
    have h2 := dropWhileWS_length isWS l
    omega

theorem scanLoc_length : ∀ l loc r, scanLoc l = some (loc, r) →
    r.length < l.length := by
  intro l
  induction l with
  | nil => intro loc r h; simp [scanLoc] at h
  | cons c rest ih =>
    intro loc r h
    simp only [scanLoc] at h
    split at h
    · simp only [Option.some.injEq, Prod.mk.injEq] at h
      obtain ⟨h1, h2⟩ := h
      subst h2
      simp
    · split at h
      · rename_i loc' r' hsc
        simp only [Option.some.injEq, Prod.mk.injEq] at h
        obtain ⟨h1, h2⟩ := h
        subst h2
        exact Nat.lt_succ_of_lt (ih _ _ hsc)
      · exact absurd h (by simp)

theorem tryLoc_length : ∀ l loc r, tryLoc l = some (loc, r) →
    r.length < l.length := by
  intro l loc r h
  simp only [tryLoc] at h
  split at h
  · rename_i r1 haw
    exact Nat.lt_of_lt_of_le (scanLoc_length _ _ _ h) (afterWSPlus_length _ _ _ haw)
  · exact absurd h (by simp)

theorem scanConf_length : ∀ l conf loc r, scanConf l = some (conf, loc, r) →
    r.length < l.length := by
  intro l
  induction l with
  | nil => intro conf loc r h; simp [scanConf] at h
  | cons c rest ih =>
    intro conf loc r h
    simp only [scanConf] at h
    split at h
    · split at h
      · rename_i loc' r' htl
        simp only [Option.some.injEq, Prod.mk.injEq] at h
        obtain ⟨h1, h2, h3⟩ := h
        subst h3
        exact Nat.lt_succ_of_lt (tryLoc_length _ _ _ htl)
      · split at h
        · rename_i conf' loc' r' hsc
          simp only [Option.some.injEq, Prod.mk.injEq] at h
          obtain ⟨h1, h2, h3⟩ := h
          subst h3
          exact Nat.lt_succ_of_lt (ih _ _ _ hsc)
        · exact absurd h (by simp)
    · split at h
      · rename_i conf' loc' r' hsc
        simp only [Option.some.injEq, Prod.mk.injEq] at h
        obtain ⟨h1, h2, h3⟩ := h
        subst h3
        exact Nat.lt_succ_of_lt (ih _ _ _ hsc)
      · exact absurd h (by simp)

theorem scanSev_length : ∀ l sev conf loc r, scanSev l = some (sev, conf, loc, r) →
    r.length < l.length := by
  intro l
  induction l with
  | nil => intro sev conf loc r h; simp [scanSev] at h
  | cons c rest ih =>
    intro sev conf loc r h
    simp only [scanSev] at h
    split at h
    · split at h
      · rename_i r1 haw
        split at h
        · rename_i conf' loc' r2 hsc
          simp only [Option.some.injEq, Prod.mk.injEq] at h
          obtain ⟨h1, h2, h3, h4⟩ := h
          subst h4
          exact Nat.lt_of_lt_of_le (scanConf_length _ _ _ _ hsc)
            (afterWSPlus_length _ _ _ haw)
        · split at h
          · rename_i sev' conf' loc' r' hss
            simp only [Option.some.injEq, Prod.mk.injEq] at h
            obtain ⟨h1, h2, h3, h4⟩ := h
            subst h4
            exact Nat.lt_succ_of_lt (ih _ _ _ _ hss)
          · exact absurd h (by simp)
      · split at h
        · rename_i sev' conf' loc' r' hss
          simp only [Option.some.injEq, Prod.mk.injEq] at h
          obtain ⟨h1, h2, h3, h4⟩ := h
          subst h4
          exact Nat.lt_succ_of_lt (ih _ _ _ _ hss)
        · exact absurd h (by simp)
    · split at h
      · rename_i sev' conf' loc' r' hss
        simp only [Option.some.injEq, Prod.mk.injEq] at h
        obtain ⟨h1, h2, h3, h4⟩ := h
        subst h4
        exact Nat.lt_succ_of_lt (ih _ _ _ _ hss)
      · exact absurd h (by simp)

theorem scanDesc_length : ∀ l iss r, scanDesc l = some (iss, r) →
    r.length < l.length := by
  intro l
  induction l with
  | nil => intro iss r h; simp [scanDesc] at h
  | cons c rest ih =>
    intro iss r h
    simp only [scanDesc] at h
    split at h
    · split at h
      · rename_i r1 haw
        split at h
        · rename_i sev' conf' loc' r2 hss
          simp only [Option.some.injEq, Prod.mk.injEq] at h
          obtain ⟨h1, h2⟩ := h
          subst h2
          exact Nat.lt_succ_of_lt (Nat.lt_of_lt_of_le
            (scanSev_length _ _ _ _ _ hss) (afterWSPlus_length _ _ _ haw))
        · split at h
          · rename_i iss' r' hsd
            simp only [Option.some.injEq, Prod.mk.injEq] at h
            obtain ⟨h1, h2⟩ := h
            subst h2
            exact Nat.lt_succ_of_lt (ih _ _ hsd)
          · exact absurd h (by simp)
      · split at h
        · rename_i iss' r' hsd
          simp only [Option.some.injEq, Prod.mk.injEq] at h
          obtain ⟨h1, h2⟩ := h
          subst h2
          exact Nat.lt_succ_of_lt (ih _ _ hsd)
        · exact absurd h (by simp)
    · split at h
      · rename_i iss' r' hsd
        simp only [Option.some.injEq, Prod.mk.injEq] at h
        obtain ⟨h1, h2⟩ := h
        subst h2
        exact Nat.lt_succ_of_lt (ih _ _ hsd)
      · exact absurd h (by simp)

theorem matchAt_length : ∀ l iss r, matchAt l = some (iss, r) →
    r.length < l.length := by
  intro l iss r h
  simp only [matchAt] at h
  split at h
  · rename_i r0 hst
    have h1 := scanDesc_length _ _ _ h
    have h2 := stripLit_length _ _ _ hst
    have : issueLit.length = 10 := by decide
    omega
  · exact absurd h (by simp)

theorem findAux_fuel : ∀ n m l, l.length ≤ n → l.length ≤ m →
    findAux n l = findAux m l := by
  intro n
  induction n with
  | zero =>
    intro m l hn _
    have : l = [] := List.length_eq_zero.mp (Nat.le_zero.mp hn)
    subst this
    cases m <;> simp [findAux]
  | succ n ih =>
    intro m l hn hm
    cases l with
    | nil => cases m <;> simp [findAux]
    | cons c rest =>
      cases m with
      | zero => simp at hm
      | succ m' =>
        have hn' : rest.length ≤ n := by simp at hn; omega
        have hm' : rest.length ≤ m' := by simp at hm; omega
        cases hma : matchAt (c :: rest) with
        | none => simp only [findAux, hma]; exact ih m' rest hn' hm'
        | some p =>
          obtain ⟨iss, r⟩ := p
          have hlt := matchAt_length _ _ _ hma
          simp only [findAux, hma]
          rw [ih m' r (by simp at hlt; omega) (by simp at hlt; omega)]

theorem findIssues_fuel (n : Nat) (l : List Char) (h : l.length ≤ n) :
    findAux n l = findIssues l :=
  findAux_fuel n l.length l h (Nat.le_refl _)

/-! ### Exact behaviour on canonical well-formed issue blocks -/

theorem stripLit_self : ∀ lit t, stripLit lit (lit ++ t) = some t := by
  intro lit
  induction lit with
  | nil => intro t; simp [stripLit]
  | cons c cs ih => intro t; simp [stripLit, ih]

theorem sevLit_eq : sevLit = 'S' :: "everity: ".toList := by decide

theorem confLit_eq : confLit = 'C' :: "onfidence: ".toList := by decide

theorem locLit_eq : locLit = 'L' :: "ocation: ".toList := by decide

theorem takeWhile_ws_append (w : List Char) (x : Char) (t : List Char)
    (hw : ∀ c ∈ w, isWS c = true) (hx : isWS x = false) :
    (w ++ x :: t).takeWhile isWS = w := by
  induction w with
  | nil => simp [List.takeWhile_cons, hx]
  | cons a w' ih =>
    have ha : isWS a = true := hw a (by simp)
    simp only [List.cons_append, List.takeWhile_cons, ha, if_true]
    have := ih (fun c hc => hw c (by simp [hc]))
    simp [this]

theorem dropWhile_ws_append (w : List Char) (x : Char) (t : List Char)
    (hw : ∀ c ∈ w, isWS c = true) (hx : isWS x = false) :
    (w ++ x :: t).dropWhile isWS = x :: t := by
  induction w with
  | nil => simp [List.dropWhile_cons, hx]
  | cons a w' ih =>
    have ha : isWS a = true := hw a (by simp)
    simp only [List.cons_append, List.dropWhile_cons, ha, if_true]
    exact ih (fun c hc => hw c (by simp [hc]))

theorem afterWSPlus_exact (x : Char) (lit' w t : List Char)
    (hw : ∀ c ∈ w, isWS c = true) (hne : w ≠ []) (hx : isWS x = false) :
    afterWSPlus (x :: lit') (w ++ x :: (lit' ++ t)) = some t := by
  unfold afterWSPlus
  rw [takeWhile_ws_append w x _ hw hx, dropWhile_ws_append w x _ hw hx,
    if_neg hne]
  simp [stripLit, stripLit_self]

theorem scanLoc_exact : ∀ loc rest, (∀ c ∈ loc, c ≠ '\n') →
    scanLoc (loc ++ '\n' :: rest) = some (loc, rest) := by
  intro loc
  induction loc with
  | nil => intro rest _; simp [scanLoc]
  | cons c cs ih =>
    intro rest h
    have hc : ¬ (c = '\n') := h c (by simp)
    have ihr := ih rest (fun d hd => h d (by simp [hd]))
    simp only [List.cons_append, scanLoc, if_neg hc, List.append_eq, ihr]

theorem tryLoc_exact (i2 loc rest : List Char)
    (hi2 : ∀ c ∈ i2, isWS c = true) (hne : i2 ≠ [])
    (hloc : ∀ c ∈ loc, c ≠ '\n') :
    tryLoc (i2 ++ (locLit ++ (loc ++ '\n' :: rest))) = some (loc, rest) := by
  have haw := afterWSPlus_exact 'L' ("ocation: ".toList) i2 (loc ++ '\n' :: rest)
    hi2 hne (by decide)
  unfold tryLoc
  rw [locLit_eq]
  simp only [List.cons_append, List.append_assoc] at haw ⊢
  rw [haw]
  exact scanLoc_exact loc rest hloc

theorem scanConf_exact : ∀ conf (i2 loc rest : List Char),
    (∀ c ∈ conf, c ≠ '\n') → (∀ c ∈ i2, isWS c = true) → i2 ≠ [] →
    (∀ c ∈ loc, c ≠ '\n') →
    scanConf (conf ++ '\n' :: (i2 ++ (locLit ++ (loc ++ '\n' :: rest))))
      = some (conf, loc, rest) := by
  intro conf
  induction conf with
  | nil =>
    intro i2 loc rest _ hi2 hne hloc
    simp only [List.nil_append, scanConf, eq_self_iff_true, if_true,
      tryLoc_exact i2 loc rest hi2 hne hloc]
  | cons c cs ih =>
    intro i2 loc rest hconf hi2 hne hloc
    have hc : ¬ (c = '\n') := hconf c (by simp)
    have ihr := ih i2 loc rest (fun d hd => hconf d (by simp [hd])) hi2 hne hloc
    simp only [List.cons_append, scanConf, if_neg hc, List.append_eq, ihr]

theorem scanSev_exact : ∀ sev (gap conf i2 loc rest : List Char),
    (∀ c ∈ sev, isWS c = false) → (∀ c ∈ gap, isWS c = true) → gap ≠ [] →
    (∀ c ∈ conf, c ≠ '\n') → (∀ c ∈ i2, isWS c = true) → i2 ≠ [] →
    (∀ c ∈ loc, c ≠ '\n') →
    scanSev (sev ++ (gap ++ (confLit ++ (conf ++ '\n' :: (i2 ++ (locLit ++ (loc ++ '\n' :: rest)))))))
      = some (sev, conf, loc, rest) := by
  intro sev
  induction sev with
  | nil =>
    intro gap conf i2 loc rest _ hgap hgne hconf hi2 hine hloc
    cases gap with
    | nil => exact absurd rfl hgne
    | cons g g' =>
      have hg : isWS g = true := hgap g (by simp)
      have haw := afterWSPlus_exact 'C' ("onfidence: ".toList) (g :: g')
        (conf ++ '\n' :: (i2 ++ (locLit ++ (loc ++ '\n' :: rest))))
        hgap hgne (by decide)
      have hsc := scanConf_exact conf i2 loc rest hconf hi2 hine hloc
      simp only [List.cons_append, List.append_assoc, List.append_eq] at haw
      simp only [List.nil_append, List.cons_append, scanSev, hg,
        eq_self_iff_true, if_true, confLit_eq, List.append_assoc,
        List.append_eq, haw, hsc]
  | cons c cs ih =>
    intro gap conf i2 loc rest hsev hgap hgne hconf hi2 hine hloc
    have hc : isWS c = false := hsev c (by simp)
    have ihr := ih gap conf i2 loc rest (fun d hd => hsev d (by simp [hd]))
      hgap hgne hconf hi2 hine hloc
    simp only [List.cons_append, scanSev, hc, Bool.false_eq_true, if_false,
      List.append_eq, ihr]

theorem scanDesc_exact : ∀ dsc (i1 sev gap conf i2 loc rest : List Char),
    (∀ c ∈ dsc, c ≠ '\n') → (∀ c ∈ i1, isWS c = true) → i1 ≠ [] →
    (∀ c ∈ sev, isWS c = false) → (∀ c ∈ gap, isWS c = true) → gap ≠ [] →
    (∀ c ∈ conf, c ≠ '\n') → (∀ c ∈ i2, isWS c = true) → i2 ≠ [] →
    (∀ c ∈ loc, c ≠ '\n') →
    scanDesc (dsc ++ '\n' :: (i1 ++ (sevLit ++ (sev ++ (gap ++ (confLit ++ (conf ++ '\n' :: (i2 ++ (locLit ++ (loc ++ '\n' :: rest))))))))))
      = some (⟨dsc, sev, conf, loc⟩, rest) := by
  intro dsc
  induction dsc with
  | nil =>
    intro i1 sev gap conf i2 loc rest _ hi1 h1ne hsev hgap hgne hconf hi2 hine hloc
    have haw := afterWSPlus_exact 'S' ("everity: ".toList) i1
      (sev ++ (gap ++ (confLit ++ (conf ++ '\n' :: (i2 ++ (locLit ++ (loc ++ '\n' :: rest)))))))
      hi1 h1ne (by decide)
    have hss := scanSev_exact sev gap conf i2 loc rest hsev hgap hgne hconf hi2 hine hloc
    simp only [List.cons_append, List.append_assoc, List.append_eq] at haw
    simp only [List.nil_append, scanDesc, eq_self_iff_true, if_true, sevLit_eq,
      List.cons_append, List.append_assoc, List.append_eq, haw, hss]
  | cons c cs ih =>
    intro i1 sev gap conf i2 loc rest hdsc hi1 h1ne hsev hgap hgne hconf hi2 hine hloc
    have hc : ¬ (c = '\n') := hdsc c (by simp)
    have ihr := ih i1 sev gap conf i2 loc rest (fun d hd => hdsc d (by simp [hd]))
      hi1 h1ne hsev hgap hgne hconf hi2 hine hloc
    simp only [List.cons_append, scanDesc, if_neg hc, List.append_eq, ihr]

theorem matchAt_body (b : BlockShape) (rest : List Char) (hb : b.Wf) :
    matchAt (b.body ++ rest) = some (b.issue, rest) := by
  obtain ⟨-, hi1, h1ne, hgap, hgne, hi2, hine, hdsc, -, hsev, -, hconf, -, hloc, -⟩ := hb
  have hsd := scanDesc_exact b.issue.desc b.ind1 b.issue.sev b.gap b.issue.conf
    b.ind2 b.issue.loc rest hdsc hi1 h1ne hsev hgap hgne hconf hi2 hine hloc
  have hshape : b.body ++ rest = issueLit ++ (b.issue.desc ++ '\n' :: (b.ind1
      ++ (sevLit ++ (b.issue.sev ++ (b.gap ++ (confLit ++ (b.issue.conf
        ++ '\n' :: (b.ind2 ++ (locLit ++ (b.issue.loc ++ '\n' :: rest)))))))))) := by
    simp [BlockShape.body, List.append_assoc]
  rw [hshape]
  simp only [matchAt, stripLit_self, hsd]

theorem findIssues_nil : findIssues [] = [] := rfl

theorem matchAt_cons_ne (c : Char) (t : List Char) (hc : c ≠ '>') :
    matchAt (c :: t) = none := by
  have h1 : issueLit = '>' :: "> Issue: ".toList := by decide
  simp only [matchAt, h1, stripLit]
  rw [if_neg (fun h => hc h.symm)]

theorem findIssues_cons_ne (c : Char) (t : List Char) (hc : c ≠ '>') :
    findIssues (c :: t) = findIssues t := by
  unfold findIssues
  simp only [List.length_cons, findAux, matchAt_cons_ne c t hc]

theorem findIssues_append_pre : ∀ pre l, (∀ c ∈ pre, c ≠ '>') →
    findIssues (pre ++ l) = findIssues l := by
  intro pre
  induction pre with
  | nil => intro l _; simp
  | cons c p ih =>
    intro l h
    rw [List.cons_append, findIssues_cons_ne _ _ (h c (by simp))]
    exact ih l (fun d hd => h d (by simp [hd]))

theorem findIssues_body_cons (b : BlockShape) (rest : List Char) (hb : b.Wf) :
    findIssues (b.body ++ rest) = b.issue :: findIssues rest := by
  have hm := matchAt_body b rest hb
  have hne : b.body ++ rest ≠ [] := by
    simp [BlockShape.body, issueLit]
  obtain ⟨c, t, hct⟩ := List.exists_cons_of_ne_nil hne
  unfold findIssues
  rw [hct] at hm ⊢
  have hlt := matchAt_length _ _ _ hm
  simp only [List.length_cons] at hlt
  simp only [List.length_cons, findAux, hm]
  rw [findAux_fuel t.length rest.length rest (by omega) (Nat.le_refl _)]

theorem findIssues_renderReport : ∀ bs tail, (∀ b ∈ bs, b.Wf) →
    (∀ c ∈ tail, c ≠ '>') →
    findIssues (renderReport bs tail) = bs.map (fun b => b.issue) := by
  intro bs
  induction bs with
  | nil =>
    intro tail _ ht
    have h := findIssues_append_pre tail [] ht
    simpa [findIssues_nil] using h
  | cons b bs ih =>
    intro tail hwf ht
    have hb := hwf b (by simp)
    have hshape : renderReport (b :: bs) tail
        = b.pre ++ (b.body ++ renderReport bs tail) := by
      simp [renderReport, BlockShape.render, List.append_assoc]
    rw [hshape, findIssues_append_pre _ _ hb.1, findIssues_body_cons b _ hb]
    simp [ih tail (fun x hx => hwf x (by simp [hx])) ht]

theorem findIssues_renderReport_tail : ∀ bs tail, (∀ b ∈ bs, b.Wf) →
    findIssues tail = [] →
    findIssues (renderReport bs tail) = bs.map (fun b => b.issue) := by
  intro bs
  induction bs with
  | nil => intro tail _ ht; simpa [renderReport] using ht
  | cons b bs ih =>
    intro tail hwf ht
    have hb := hwf b (by simp)
    have hshape : renderReport (b :: bs) tail
        = b.pre ++ (b.body ++ renderReport bs tail) := by
      simp [renderReport, BlockShape.render, List.append_assoc]
    rw [hshape, findIssues_append_pre _ _ hb.1, findIssues_body_cons b _ hb]
    simp [ih tail (fun x hx => hwf x (by simp [hx])) ht]

/-- C2: a report consisting of `k` well-formed occurrences of the issue
pattern (arbitrary marker-free separator text in between and after) parses
to exactly `k` issue records, in order of first occurrence, the four
captured fields of each record being exactly the fields of the occurrence —
in particular free of the structural whitespace surrounding them and free
of leading/trailing whitespace. -/
theorem parse_wellformed_report_exact (bs : List BlockShape) (tail : List Char)
    (hwf : ∀ b ∈ bs, b.Wf) (htail : ∀ c ∈ tail, c ≠ '>') :
    findIssues (renderReport bs tail) = bs.map (fun b => b.issue) ∧
    parse_vulnerabilities (renderReport bs tail)
      = bs.map (fun b => formatIssue b.issue) ∧
    (parse_vulnerabilities (renderReport bs tail)).length = bs.length ∧
    ∀ iss ∈ findIssues (renderReport bs tail),
      trimmedWS iss.desc = true ∧ trimmedWS iss.sev = true ∧
      trimmedWS iss.conf = true ∧ trimmedWS iss.loc = true := by
  have h := findIssues_renderReport bs tail hwf htail
  refine ⟨h, ?_, ?_, ?_⟩
  · simp [parse_vulnerabilities, h]
  · simp [parse_vulnerabilities, h]
  · intro iss hmem
    rw [h] at hmem
    obtain ⟨b, hb, rfl⟩ := List.mem_map.mp hmem
    obtain ⟨-, -, -, -, -, -, -, -, h9, -, h11, -, h13, -, h15⟩ := hwf b hb
    exact ⟨h9, h11, h13, h15⟩

/-- Witness for C2 at a concrete two-issue report. -/
theorem parse_wellformed_report_exact_witness :
    ((∀ b ∈ c2Blocks, b.Wf) ∧ (∀ c ∈ c2Tail, c ≠ '>')) ∧
    findIssues (renderReport c2Blocks c2Tail) = c2Blocks.map (fun b => b.issue) ∧
    (parse_vulnerabilities (renderReport c2Blocks c2Tail)).length = c2Blocks.length :=
  ⟨⟨by decide, by decide⟩,
   (parse_wellformed_report_exact c2Blocks c2Tail (by decide) (by decide)).1,
   (parse_wellformed_report_exact c2Blocks c2Tail (by decide) (by decide)).2.2.1⟩

theorem findAux_of_no_match : ∀ n l,
    (∀ i, i ≤ l.length → matchAt (l.drop i) = none) → findAux n l = [] := by
  intro n
  induction n with
  | zero => intro l _; rfl
  | succ n ih =>
    intro l h
    cases l with
    | nil => rfl
    | cons c rest =>
      have h0 : matchAt (c :: rest) = none := by simpa using h 0 (by simp)
      simp only [findAux, h0]
      exact ih rest (fun i hi => by
        have := h (i + 1) (by simp only [List.length_cons]; omega)
        simpa using this)

/-- C8: the parser is a total function; on an input in which the issue
pattern matches nowhere (a clean scan or an arbitrarily malformed report)
it returns the empty list rather than an error. -/
theorem parse_zero_matches_empty (l : List Char)
    (h : ∀ i, i ≤ l.length → matchAt (l.drop i) = none) :
    parse_vulnerabilities l = [] := by
  unfold parse_vulnerabilities findIssues
  rw [findAux_of_no_match l.length l h]
  rfl

/-- Witness for C8 at a concrete clean report. -/
theorem parse_zero_matches_empty_witness :
    (∀ i, i ≤ c8Clean.length → matchAt (c8Clean.drop i) = none) ∧
    parse_vulnerabilities c8Clean = [] :=
  ⟨by decide, parse_zero_matches_empty c8Clean (by decide)⟩

theorem scanLoc_none : ∀ l, (∀ c ∈ l, c ≠ '\n') → scanLoc l = none := by
  intro l
  induction l with
  | nil => intro _; rfl
  | cons c rest ih =>
    intro h
    have hc : ¬ (c = '\n') := h c (by simp)
    simp only [scanLoc, if_neg hc, ih (fun d hd => h d (by simp [hd]))]

theorem stripLit_suffix : ∀ lit l r, stripLit lit l = some r → l = lit ++ r := by
  intro lit
  induction lit with
  | nil =>
    intro l r h
    simp [stripLit] at h
    simp [h]
  | cons c cs ih =>
    intro l r h
    cases l with
    | nil => simp [stripLit] at h
    | cons x xs =>
      simp only [stripLit] at h
      split at h
      · rename_i hcx
        rw [List.cons_append, ← hcx, ih xs r h]
      · exact absurd h (by simp)

theorem afterWSPlus_suffix (lit l r : List Char) (h : afterWSPlus lit l = some r) :
    ∃ u, l = u ++ r := by
  simp only [afterWSPlus] at h
  split at h
  · exact absurd h (by simp)
  · refine ⟨l.takeWhile isWS ++ lit, ?_⟩
    have h1 := stripLit_suffix _ _ _ h
    rw [List.append_assoc, ← h1, List.takeWhile_append_dropWhile]

theorem afterWSPlus_mismatch (y : Char) (lit' w t : List Char) (x : Char)
    (hw : ∀ c ∈ w, isWS c = true) (hx : isWS x = false) (hyx : ¬ (y = x)) :
    afterWSPlus (y :: lit') (w ++ x :: t) = none := by
  unfold afterWSPlus
  rw [takeWhile_ws_append w x _ hw hx, dropWhile_ws_append w x _ hw hx]
  by_cases hne : w = []
  · rw [if_pos hne]
  · rw [if_neg hne]
    simp [stripLit, hyx]

theorem noLocTail_nil : NoLocTail [] := by
  intro a b h
  exact absurd h (by simp)

theorem noLocTail_of_append : ∀ u X, NoLocTail (u ++ X) → NoLocTail X := by
  intro u X h a b hab
  exact h (u ++ a) b (by rw [hab, List.append_assoc])

theorem noLocTail_cons (c : Char) (X : List Char)
    (h1 : c = '\n' → tryLoc X = none) (h2 : NoLocTail X) :
    NoLocTail (c :: X) := by
  intro a b hab
  cases a with
  | nil =>
    simp only [List.nil_append, List.cons.injEq] at hab
    obtain ⟨hc, hX⟩ := hab
    subst hX
    exact h1 hc
  | cons a0 a' =>
    simp only [List.cons_append, List.cons.injEq] at hab
    exact h2 a' b hab.2

theorem noLocTail_append_noNL : ∀ u X, (∀ c ∈ u, c ≠ '\n') → NoLocTail X →
    NoLocTail (u ++ X) := by
  intro u
  induction u with
  | nil => intro X _ h; simpa using h
  | cons c u' ih =>
    intro X hu h
    rw [List.cons_append]
    exact noLocTail_cons c (u' ++ X)
      (fun hc => absurd hc (hu c (by simp)))
      (ih X (fun d hd => hu d (by simp [hd])) h)

theorem noLocTail_of_noNL (u : List Char) (h : ∀ c ∈ u, c ≠ '\n') :
    NoLocTail u := by
  have h2 := noLocTail_append_noNL u [] h noLocTail_nil
  simpa using h2

theorem scanConf_none : ∀ X, NoLocTail X → scanConf X = none := by
  intro X
  induction X with
  | nil => intro _; rfl
  | cons c rest ih =>
    intro h
    have hrest : NoLocTail rest := noLocTail_of_append [c] rest h
    by_cases hc : c = '\n'
    · subst hc
      have htl : tryLoc rest = none := h [] rest rfl
      simp only [scanConf, eq_self_iff_true, if_true, htl, ih hrest]
    · simp only [scanConf, if_neg hc, ih hrest]

theorem scanSev_none : ∀ X, NoLocTail X → scanSev X = none := by
  intro X
  induction X with
  | nil => intro _; rfl
  | cons c rest ih =>
    intro h
    have hrest : NoLocTail rest := noLocTail_of_append [c] rest h
    by_cases hw : isWS c = true
    · cases haw : afterWSPlus confLit (c :: rest) with
      | none => simp only [scanSev, hw, if_true, haw, ih hrest]
      | some r1 =>
        obtain ⟨u, hu⟩ := afterWSPlus_suffix confLit (c :: rest) r1 haw
        have hr1 : NoLocTail r1 := noLocTail_of_append u r1 (hu ▸ h)
        have hsc : scanConf r1 = none := scanConf_none r1 hr1
        simp only [scanSev, hw, if_true, haw, hsc, ih hrest]
    · have hwf : isWS c = false := by simpa using hw
      simp only [scanSev, hwf, Bool.false_eq_true, if_false, ih hrest]

theorem scanDesc_none : ∀ X, NoLocTail X → scanDesc X = none := by
  intro X
  induction X with
  | nil => intro _; rfl
  | cons c rest ih =>
    intro h
    have hrest : NoLocTail rest := noLocTail_of_append [c] rest h
    by_cases hc : c = '\n'
    · subst hc
      cases haw : afterWSPlus sevLit rest with
      | none => simp only [scanDesc, eq_self_iff_true, if_true, haw, ih hrest]
      | some r1 =>
        obtain ⟨u, hu⟩ := afterWSPlus_suffix sevLit rest r1 haw
        have hr1 : NoLocTail r1 :=
          noLocTail_of_append ('\n' :: u) r1 (by rw [hu] at h; simpa using h)
        have hss : scanSev r1 = none := scanSev_none r1 hr1
        simp only [scanDesc, eq_self_iff_true, if_true, haw, hss, ih hrest]
    · simp only [scanDesc, if_neg hc, ih hrest]

theorem matchAt_none_of_noLocTail (X : List Char) (h : NoLocTail X) :
    matchAt X = none := by
  unfold matchAt
  cases hst : stripLit issueLit X with
  | none => rfl
  | some r =>
    have hX : X = issueLit ++ r := stripLit_suffix _ _ _ hst
    exact scanDesc_none r (noLocTail_of_append issueLit r (hX ▸ h))

theorem findIssues_nil_of_noLocTail (X : List Char) (h : NoLocTail X) :
    findIssues X = [] := by
  unfold findIssues
  apply findAux_of_no_match
  intro i _
  apply matchAt_none_of_noLocTail
  have hsplit : X = X.take i ++ X.drop i := (List.take_append_drop i X).symm
  exact noLocTail_of_append (X.take i) (X.drop i) (hsplit ▸ h)

theorem noLocTail_bodyTrunc (b : BlockShape) (hb : b.WfStrict) :
    NoLocTail b.bodyTrunc := by
  obtain ⟨⟨hpre, hi1, h1ne, hgap, hgne, hi2, hine, hdsc, -, hsev, -, hconf, -,
    hloc, -⟩, hn1, hn2, hn3⟩ := hb
  have hlocLit : ∀ c ∈ locLit, c ≠ '\n' := by decide
  have hsevLit : ∀ c ∈ sevLit, c ≠ '\n' := by decide
  have hconfLit : ∀ c ∈ confLit, c ≠ '\n' := by decide
  have hissueLit : ∀ c ∈ issueLit, c ≠ '\n' := by decide
  have hsevnl : ∀ c ∈ b.issue.sev, c ≠ '\n' := by
    intro c hc he
    have h2 := hsev c hc
    rw [he] at h2
    exact absurd h2 (by decide)
  have hU3nl : ∀ c ∈ b.ind2 ++ (locLit ++ b.issue.loc), c ≠ '\n' := by
    intro c hc
    rcases List.mem_append.mp hc with h | h
    · exact hn3 c h
    · rcases List.mem_append.mp h with h | h
      · exact hlocLit c h
      · exact hloc c h
  have h3 : NoLocTail (b.ind2 ++ (locLit ++ b.issue.loc)) :=
    noLocTail_of_noNL _ hU3nl
  have htl3 : tryLoc (b.ind2 ++ (locLit ++ b.issue.loc)) = none := by
    have haw := afterWSPlus_exact 'L' ("ocation: ".toList) b.ind2 b.issue.loc
      hi2 hine (by decide)
    unfold tryLoc
    rw [locLit_eq]
    simp only [List.cons_append, List.append_assoc, List.append_eq] at haw ⊢
    rw [haw]
    exact scanLoc_none _ hloc
  have h2 : NoLocTail ('\n' :: (b.ind2 ++ (locLit ++ b.issue.loc))) :=
    noLocTail_cons _ _ (fun _ => htl3) h3
  have hU2nl : ∀ c ∈ b.ind1 ++ (sevLit ++ (b.issue.sev ++ (b.gap
      ++ (confLit ++ b.issue.conf)))), c ≠ '\n' := by
    intro c hc
    rcases List.mem_append.mp hc with h | h
    · exact hn1 c h
    · rcases List.mem_append.mp h with h | h
      · exact hsevLit c h
      · rcases List.mem_append.mp h with h | h
        · exact hsevnl c h
        · rcases List.mem_append.mp h with h | h
          · exact hn2 c h
          · rcases List.mem_append.mp h with h | h
            · exact hconfLit c h
            · exact hconf c h
  have h1body : NoLocTail ((b.ind1 ++ (sevLit ++ (b.issue.sev ++ (b.gap
      ++ (confLit ++ b.issue.conf)))))
      ++ '\n' :: (b.ind2 ++ (locLit ++ b.issue.loc))) :=
    noLocTail_append_noNL _ _ hU2nl h2
  have htl1 : tryLoc ((b.ind1 ++ (sevLit ++ (b.issue.sev ++ (b.gap
      ++ (confLit ++ b.issue.conf)))))
      ++ '\n' :: (b.ind2 ++ (locLit ++ b.issue.loc))) = none := by
    have hmm := afterWSPlus_mismatch 'L' ("ocation: ".toList) b.ind1
      ("everity: ".toList ++ (b.issue.sev ++ (b.gap ++ (confLit
        ++ (b.issue.conf ++ '\n' :: (b.ind2 ++ (locLit ++ b.issue.loc)))))))
      'S' hi1 (by decide) (by decide)
    unfold tryLoc
    simp only [locLit_eq, sevLit_eq, List.cons_append, List.append_assoc,
      List.append_eq] at hmm ⊢
    rw [hmm]
  have h1 : NoLocTail ('\n' :: ((b.ind1 ++ (sevLit ++ (b.issue.sev ++ (b.gap
      ++ (confLit ++ b.issue.conf)))))
      ++ '\n' :: (b.ind2 ++ (locLit ++ b.issue.loc)))) :=
    noLocTail_cons _ _ (fun _ => htl1) h1body
  have hU1nl : ∀ c ∈ issueLit ++ b.issue.desc, c ≠ '\n' := by
    intro c hc
    rcases List.mem_append.mp hc with h | h
    · exact hissueLit c h
    · exact hdsc c h
  have h0 : NoLocTail ((issueLit ++ b.issue.desc)
      ++ '\n' :: ((b.ind1 ++ (sevLit ++ (b.issue.sev ++ (b.gap
        ++ (confLit ++ b.issue.conf)))))
        ++ '\n' :: (b.ind2 ++ (locLit ++ b.issue.loc)))) :=
    noLocTail_append_noNL _ _ hU1nl h1
  have hshape : b.bodyTrunc = (issueLit ++ b.issue.desc)
      ++ '\n' :: ((b.ind1 ++ (sevLit ++ (b.issue.sev ++ (b.gap
        ++ (confLit ++ b.issue.conf)))))
        ++ '\n' :: (b.ind2 ++ (locLit ++ b.issue.loc))) := by
    simp [BlockShape.bodyTrunc, List.append_assoc]
  rw [hshape]
  exact h0

theorem findIssues_trunc_nil (b : BlockShape) (hb : b.WfStrict) :
    findIssues (b.pre ++ b.bodyTrunc) = [] := by
  rw [findIssues_append_pre b.pre _ hb.1.1]
  exact findIssues_nil_of_noLocTail _ (noLocTail_bodyTrunc b hb)

/-- C10: the pattern requires a terminating newline after the `Location`
line: every report made of well-formed occurrences followed by a final
well-formed issue block (arbitrary field contents) whose location line is
not newline-terminated parses to the records of the leading occurrences
only — the final issue is omitted, so the result has one record fewer
than the number of issue blocks present. -/
theorem parse_drops_unterminated_final_issue (bs : List BlockShape)
    (b : BlockShape) (hwf : ∀ x ∈ bs, x.Wf) (hb : b.WfStrict) :
    findIssues (renderReport bs (b.pre ++ b.bodyTrunc))
      = bs.map (fun x => x.issue) ∧
    (parse_vulnerabilities (renderReport bs (b.pre ++ b.bodyTrunc))).length
      = bs.length := by
  have h := findIssues_renderReport_tail bs (b.pre ++ b.bodyTrunc) hwf
    (findIssues_trunc_nil b hb)
  exact ⟨h, by simp [parse_vulnerabilities, h]⟩

/-- Witness for C10: a two-block report whose final block lacks the
terminating newline yields exactly one record. -/
theorem parse_drops_unterminated_final_issue_witness :
    ((∀ x ∈ c10Blocks, x.Wf) ∧ c10Final.WfStrict) ∧
    (parse_vulnerabilities (renderReport c10Blocks
      (c10Final.pre ++ c10Final.bodyTrunc))).length = c10Blocks.length :=
  ⟨⟨by decide, by decide⟩,
   (parse_drops_unterminated_final_issue c10Blocks c10Final
     (by decide) (by decide)).2⟩

/-! ### Submission history: text/date filtering and relative-date bucketing
(src/app.py, `show_recent_codes_on_main`, lines 66-137) -/

theorem bucketOf_mem (today sd : Int) : bucketOf today sd ∈ bucketLabels := by
  simp only [bucketOf]
  split_ifs <;> decide

/-- C3: bucketing is an exclusive ladder.  (1) Every submission surviving
the filters appears in exactly one of the five buckets; (2) the source's
if/elif chain assigns exactly the first matching label of the spec's fixed
ladder Today, Yesterday, Previous 7 Days, Previous 30 Days, Older; (3) with
now = 2024-06-15 the five concrete dates of the claim land in the claimed
buckets; (4) at every boundary offset listed in the claim (0, 1, 6, 7, 8,
29, 30, 31 days before today) the assigned bucket is unique and as the
ladder dictates. -/
theorem bucket_ladder_spec :
    (∀ today q sa se subs s, s ∈ subs → keepSubmission q sa se s = true →
      (bucketLabels.filter
        (fun label => decide (s ∈ groupedCodes today q sa se subs label))).length = 1) ∧
    (∀ today sd, bucketOf today sd = specBucket today sd) ∧
    (bucketOf (dayOf 2024 6 15) (dayOf 2024 6 15) = "Today" ∧
     bucketOf (dayOf 2024 6 15) (dayOf 2024 6 14) = "Yesterday" ∧
     bucketOf (dayOf 2024 6 15) (dayOf 2024 6 10) = "Previous 7 Days" ∧
     bucketOf (dayOf 2024 6 15) (dayOf 2024 5 20) = "Previous 30 Days" ∧
     bucketOf (dayOf 2024 6 15) (dayOf 2024 1 1) = "Older") ∧
    (∀ today : Int,
      bucketOf today today = "Today" ∧
      bucketOf today (today - 1) = "Yesterday" ∧
      bucketOf today (today - 6) = "Previous 7 Days" ∧
      bucketOf today (today - 7) = "Previous 7 Days" ∧
      bucketOf today (today - 8) = "Previous 30 Days" ∧
      bucketOf today (today - 29) = "Previous 30 Days" ∧
      bucketOf today (today - 30) = "Previous 30 Days" ∧
      bucketOf today (today - 31) = "Older") := by
  refine ⟨?_, ?_, by decide, ?_⟩
  · intro today q sa se subs s hs hkeep
    have hcongr : ∀ label ∈ bucketLabels,
        decide (s ∈ groupedCodes today q sa se subs label)
          = decide (bucketOf today s.date = label) := by
      intro label _
      apply decide_eq_decide.mpr
      simp [groupedCodes, List.mem_filter, hs, hkeep]
    rw [List.filter_congr hcongr]
    have hb := bucketOf_mem today s.date
    revert hb
    generalize bucketOf today s.date = b
    intro hb
    fin_cases hb <;> decide
  · intro today sd
    simp only [bucketOf, specBucket, bucketConds]
    by_cases h1 : sd = today
    · rw [if_pos h1, show decide (sd = today) = true from decide_eq_true h1]
      simp [List.find?]
    · by_cases h2 : sd = today - 1
      · rw [if_neg h1, if_pos h2,
          show decide (sd = today) = false from decide_eq_false h1,
          show decide (sd = today - 1) = true from decide_eq_true h2]
        simp [List.find?]
      · by_cases h3 : today - 7 ≤ sd ∧ sd < today
        · rw [if_neg h1, if_neg h2, if_pos h3,
            show decide (sd = today) = false from decide_eq_false h1,
            show decide (sd = today - 1) = false from decide_eq_false h2,
            show decide (today - 7 ≤ sd ∧ sd < today) = true from decide_eq_true h3]
          simp [List.find?]
        · by_cases h4 : today - 30 ≤ sd ∧ sd < today - 7
          · rw [if_neg h1, if_neg h2, if_neg h3, if_pos h4,
              show decide (sd = today) = false from decide_eq_false h1,
              show decide (sd = today - 1) = false from decide_eq_false h2,
              show decide (today - 7 ≤ sd ∧ sd < today) = false from decide_eq_false h3,
              show decide (today - 30 ≤ sd ∧ sd < today - 7) = true from decide_eq_true h4]
            simp [List.find?]
          · rw [if_neg h1, if_neg h2, if_neg h3, if_neg h4,
              show decide (sd = today) = false from decide_eq_false h1,
              show decide (sd = today - 1) = false from decide_eq_false h2,
              show decide (today - 7 ≤ sd ∧ sd < today) = false from decide_eq_false h3,
              show decide (today - 30 ≤ sd ∧ sd < today - 7) = false from decide_eq_false h4]
            simp [List.find?]
  · intro today
    refine ⟨?_, ?_, ?_, ?_, ?_, ?_, ?_, ?_⟩ <;>
      (simp only [bucketOf]; split_ifs <;> first | rfl | omega)

/-- Witness for C3: the concrete 2024-06-10 submission, with now =
2024-06-15 and no filters, sits in exactly one bucket. -/
theorem bucket_ladder_spec_witness :
    (c3Sub ∈ [c3Sub] ∧ keepSubmission [] none none c3Sub = true) ∧
    (bucketLabels.filter
      (fun label =>
        decide (c3Sub ∈ groupedCodes (dayOf 2024 6 15) [] none none [c3Sub] label))).length = 1 :=
  ⟨⟨by decide, by decide⟩,
   bucket_ladder_spec.1 (dayOf 2024 6 15) [] none none [c3Sub] c3Sub
     (by decide) (by decide)⟩

/-- C4: the history filter keeps a submission exactly under the
conjunctive condition of the spec (empty query or case-insensitive
substring of title or input code; start absent or date at least the start
day; end absent or date at most the end day), and a single-day
start = end range keeps every submission whose calendar date is that day
(whenever the text condition passes). -/
theorem history_filter_spec :
    (∀ q sa se s, keepSubmission q sa se s = specKeep q sa se s) ∧
    (∀ q d s, textMatch q s = true → s.date = d →
      keepSubmission q (some d) (some d) s = true) := by
  constructor
  · intro q sa se s
    cases sa <;> cases se <;>
      simp [keepSubmission, specKeep, textMatch, combineMinTime, combineMaxTime,
        PyDateTime.date, Bool.and_assoc]
  · intro q d s ht hd
    subst hd
    simp [keepSubmission, ht, combineMinTime, combineMaxTime, PyDateTime.date]

/-- Witness for C4: the query "eval" matches the upper-case input code
case-insensitively, and the single-day range start = end = 2024-06-10 keeps
the submission dated 2024-06-10. -/
theorem history_filter_spec_witness :
    (textMatch "eval".toList c4Sub = true ∧ c4Sub.date = dayOf 2024 6 10) ∧
    keepSubmission "eval".toList (some (dayOf 2024 6 10)) (some (dayOf 2024 6 10)) c4Sub = true :=
  ⟨⟨by decide, by decide⟩,
   history_filter_spec.2 "eval".toList (dayOf 2024 6 10) c4Sub (by decide) (by decide)⟩

/-! ### Session state and interaction steps of `main` (src/app.py 139-248)

One user interaction triggers one full re-render pass (single-threaded,
no overlap), so each interaction is modelled as one function on the state:
`scanStep` is the scan branch of lines 181-202, `renderStep` is a plain
re-render of the issue list of lines 205-221, `toggleStep` is a checkbox
change together with its `on_change` callback, and `resolveStep` is the
resolve branch of lines 224-240.  The selection mapping
`selected_issues` (string keys "issue_i") is modelled as an
insertion-ordered association list keyed by the issue index `i`. -/

theorem lookup_setKey : ∀ (m : List (Nat × Bool)) (i j : Nat) (v : Bool),
    (setKey m i v).lookup j = if j = i then some v else m.lookup j := by
  intro m i j v
  induction m with
  | nil =>
    by_cases h : j = i
    · subst h; simp [setKey, List.lookup]
    · have hb : (j == i) = false := by simp [h]
      simp [setKey, List.lookup, h, hb]
  | cons p rest ih =>
    obtain ⟨a, b⟩ := p
    by_cases hpa : a = i
    · subst hpa
      by_cases hj : j = a
      · subst hj; simp [setKey, List.lookup]
      · have hb : (j == a) = false := by simp [hj]
        simp [setKey, List.lookup, hj, hb]
    · by_cases hj : j = a
      · have hji : ¬ (j = i) := by rw [hj]; exact hpa
        have hb : (j == a) = true := by simp [hj]
        simp [setKey, hpa, List.lookup, hb, hji]
      · have hb : (j == a) = false := by simp [hj]
        simp [setKey, hpa, List.lookup, hb, ih]

theorem lookup_append_one : ∀ (m : List (Nat × Bool)) (i j : Nat) (v : Bool),
    (m ++ [(i, v)]).lookup j
      = match m.lookup j with
        | some b => some b
        | none => if j = i then some v else none := by
  intro m i j v
  induction m with
  | nil =>
    by_cases h : j = i
    · subst h; simp [List.lookup]
    · have hb : (j == i) = false := by simp [h]
      simp [List.lookup, h, hb]
  | cons p rest ih =>
    obtain ⟨a, b⟩ := p
    by_cases h : j = a
    · subst h; simp [List.lookup]
    · have hb : (j == a) = false := by simp [h]
      simp [List.lookup, hb, ih]

theorem lookup_ensureKey (m : List (Nat × Bool)) (i j : Nat) :
    (ensureKey m i).lookup j
      = if j = i then some ((m.lookup i).getD false) else m.lookup j := by
  unfold ensureKey
  cases hmi : m.lookup i with
  | some b =>
    by_cases h : j = i
    · subst h; simp [hmi]
    · simp [h]
  | none =>
    rw [lookup_append_one]
    by_cases h : j = i
    · subst h; simp [hmi]
    · cases m.lookup j <;> simp [h]

theorem lookup_append_single_ne {b : Type} (m : List (Nat × b)) (i j : Nat)
    (v : b) (h : ¬ (j = i)) : (m ++ [(i, v)]).lookup j = m.lookup j := by
  induction m with
  | nil =>
    have hb : (j == i) = false := by simp [h]
    simp [List.lookup, hb]
  | cons p rest ih =>
    obtain ⟨a, x⟩ := p
    by_cases hja : j = a
    · subst hja; simp [List.lookup]
    · have hb : (j == a) = false := by simp [hja]
      simp [List.lookup, hb, ih]

theorem lookup_wsSetEntry_ne : ∀ (ws : List (Nat × (List Char × Bool)))
    (i j : Nat) (lbl : List Char) (v : Bool), ¬ (j = i) →
    (wsSetEntry ws i lbl v).lookup j = ws.lookup j := by
  intro ws i j lbl v h
  induction ws with
  | nil =>
    have hb : (j == i) = false := by simp [h]
    simp [wsSetEntry, List.lookup, hb]
  | cons p rest ih =>
    obtain ⟨a, x⟩ := p
    by_cases hpa : a = i
    · subst hpa
      have hb : (j == a) = false := by simp [h]
      simp [wsSetEntry, List.lookup, hb]
    · by_cases hja : j = a
      · subst hja
        simp [wsSetEntry, hpa, List.lookup]
      · have hb : (j == a) = false := by simp [hja]
        simp [wsSetEntry, hpa, List.lookup, hb, ih]

theorem lookup_checkboxCommit_ne (ws : List (Nat × (List Char × Bool)))
    (i j : Nat) (lbl : List Char) (v : Bool) (h : ¬ (j = i)) :
    (checkboxCommit ws i lbl v).lookup j = ws.lookup j := by
  unfold checkboxCommit
  cases hws : ws.lookup i with
  | none => exact lookup_append_single_ne ws i j (lbl, v) h
  | some p =>
    obtain ⟨lbl0, b0⟩ := p
    dsimp only
    by_cases heq : lbl0 = lbl
    · rw [if_pos heq]
    · rw [if_neg heq]
      exact lookup_wsSetEntry_ne ws i j lbl v h

theorem checkboxResult_congr (ws1 ws : List (Nat × (List Char × Bool)))
    (i : Nat) (lbl : List Char) (v : Bool) (h : ws1.lookup i = ws.lookup i) :
    checkboxResult ws1 i lbl v = checkboxResult ws i lbl v := by
  unfold checkboxResult
  rw [h]

theorem lookup_renderLoop : ∀ (issues : List (List Char)) (i0 : Nat)
    (m : List (Nat × Bool)) (ws : List (Nat × (List Char × Bool))) (j : Nat),
    ((renderLoop issues i0 m ws).1.lookup j)
      = if i0 ≤ j ∧ j < i0 + issues.length
        then some (checkboxResult ws j (issues.getD (j - i0) [])
            ((m.lookup j).getD false))
        else m.lookup j := by
  intro issues
  induction issues with
  | nil =>
    intro i0 m ws j
    rw [if_neg (by simp only [List.length_nil]; omega)]
    rfl
  | cons issue rest ih =>
    intro i0 m ws j
    simp only [renderLoop]
    rw [ih]
    by_cases hj : j = i0
    · subst hj
      rw [if_neg (by omega)]
      rw [lookup_setKey, if_pos rfl, lookup_ensureKey, if_pos rfl]
      rw [if_pos (by simp only [List.length_cons]; omega)]
      simp [Nat.sub_self]
    · by_cases hrange : i0 + 1 ≤ j ∧ j < i0 + 1 + rest.length
      · rw [if_pos hrange, if_pos (by simp only [List.length_cons]; omega)]
        rw [checkboxResult_congr _ _ _ _ _
          (lookup_checkboxCommit_ne ws i0 j issue _ hj)]
        rw [lookup_setKey, if_neg hj, lookup_ensureKey, if_neg hj]
        have hidx : j - i0 = (j - (i0 + 1)) + 1 := by omega
        rw [hidx, List.getD_cons_succ]
      · rw [if_neg hrange, if_neg (by simp only [List.length_cons]; omega)]
        rw [lookup_setKey, if_neg hj, lookup_ensureKey, if_neg hj]

theorem lookup_renderStep (w : World) (j : Nat) :
    ((renderStep w).session.selected_issues.lookup j)
      = if j < (parse_vulnerabilities w.session.vulnerability_report).length
        then some (checkboxResult w.widgets j
            ((parse_vulnerabilities w.session.vulnerability_report).getD j [])
            ((w.session.selected_issues.lookup j).getD false))
        else w.session.selected_issues.lookup j := by
  unfold renderStep
  by_cases hr : w.session.vulnerability_report = []
  · rw [if_pos hr]
    have h0 : (parse_vulnerabilities w.session.vulnerability_report).length = 0 := by
      rw [hr]; rfl
    rw [h0]
    simp
  · rw [if_neg hr]
    have h := lookup_renderLoop
      (parse_vulnerabilities w.session.vulnerability_report) 0
      w.session.selected_issues w.widgets j
    simp only [Nat.zero_le, true_and, Nat.zero_add, Nat.sub_zero] at h
    exact h

theorem renderStep_issues_selected (w : World) :
    (renderStep w).session.issues_selected = w.session.issues_selected := by
  unfold renderStep
  split <;> rfl

theorem renderStep_show_button (w : World) :
    (renderStep w).session.show_resolve_button
      = w.session.show_resolve_button := by
  unfold renderStep
  split <;> rfl

/-- C9 counterexample: scan a one-issue report, render, check the issue,
then re-scan the identical code.  Line 187 clears the mapping, so index 0
has no entry before the next render of the (identical) report; yet after
that render the just-created entry reads true, because the retained
checkbox widget state overwrites the ensured false at line 218 — the
claim that an index with no entry ends the render reading false fails. -/
theorem render_resurrects_retained_widget_value :
    c9Trace.session.selected_issues.lookup 0 = none ∧
    (renderStep c9Trace).session.selected_issues.lookup 0 = some true := by decide

/-- C9 amended: the ensure step of lines 214-215 itself defaults an
absent index to false and never overwrites an existing entry; but the
checkbox assignment of line 218 that immediately follows overwrites the
entry with the checkbox's state, so after the full per-issue render step
the entry reads the retained widget value whenever a widget with key
issue_i and the same label survives from a previous run, and the
pre-render entry value (absent defaulting to false) otherwise. -/
theorem ensure_defaults_then_checkbox_overwrites (m : List (Nat × Bool))
    (i : Nat) (w : World)
    (hi : i < (parse_vulnerabilities w.session.vulnerability_report).length) :
    ((ensureKey m i).lookup i = some ((m.lookup i).getD false) ∧
     ∀ j, ¬ (j = i) → (ensureKey m i).lookup j = m.lookup j) ∧
    ((renderStep w).session.selected_issues.lookup i
      = some (checkboxResult w.widgets i
          ((parse_vulnerabilities w.session.vulnerability_report).getD i [])
          ((w.session.selected_issues.lookup i).getD false))) := by
  refine ⟨⟨?_, ?_⟩, ?_⟩
  · rw [lookup_ensureKey, if_pos rfl]
  · intro j hj
    rw [lookup_ensureKey, if_neg hj]
  · rw [lookup_renderStep, if_pos hi]

/-- Witness for the amended C9: no retained widget, so the existing true
entry at index 0 survives the render through the checkbox value
parameter. -/
theorem ensure_defaults_then_checkbox_overwrites_witness :
    (0 < (parse_vulnerabilities c9World.session.vulnerability_report).length) ∧
    ((ensureKey ([(5, true)] : List (Nat × Bool)) 0).lookup 0
       = some ((([(5, true)] : List (Nat × Bool)).lookup 0).getD false)) ∧
    ((renderStep c9World).session.selected_issues.lookup 0
       = some (checkboxResult c9World.widgets 0
           ((parse_vulnerabilities c9World.session.vulnerability_report).getD 0 [])
           ((c9World.session.selected_issues.lookup 0).getD false))) :=
  ⟨by decide,
   ((ensure_defaults_then_checkbox_overwrites [(5, true)] 0 c9World
     (by decide)).1).1,
   (ensure_defaults_then_checkbox_overwrites [(5, true)] 0 c9World
     (by decide)).2⟩

/-- C5 counterexample: scan, render, select the issue, then scan the
identical code again.  Line 187 does clear the mapping before the new
report is parsed — but the checkbox widget keyed issue_0 (same label in
the new render) retains its checked state, and line 218 writes it back
into the cleared mapping, so the new report's selection state reads true:
the previous report's selection leaks into the new scan. -/
theorem scan_clears_mapping_but_widget_leaks :
    c5Trace.session.selected_issues = [] ∧
    (renderStep c5Trace).session.selected_issues.lookup 0 = some true := by decide

/-- C5 amended: a scan with nonempty code and title clears the selection
mapping (line 187, before the report of line 195 is ever parsed), and the
mapping the next render builds has exactly the new report's indices; an
index whose checkbox matches a retained widget (same key issue_i and same
label) reads that widget's previous value, and an index without a
matching retained widget defaults to false. -/
theorem new_scan_resets_mapping_except_widget_state (w : World)
    (code title report : List Char) (uid : Option Nat)
    (hc : code ≠ []) (ht : title ≠ []) :
    (scanStep code title report uid w).session.selected_issues = [] ∧
    ∀ i, ((renderStep (scanStep code title report uid w)).session.selected_issues.lookup i)
      = if i < (parse_vulnerabilities report).length
        then some (checkboxResult w.widgets i
            ((parse_vulnerabilities report).getD i []) false)
        else none := by
  have hguard : (code ≠ [] ∧ title ≠ []) := ⟨hc, ht⟩
  have h1 : (scanStep code title report uid w).session.selected_issues = [] := by
    unfold scanStep
    rw [if_pos hguard]
  have h2 : (scanStep code title report uid w).session.vulnerability_report
      = report := by
    unfold scanStep
    rw [if_pos hguard]
  have h3 : (scanStep code title report uid w).widgets = w.widgets := by
    unfold scanStep
    rw [if_pos hguard]
  refine ⟨h1, fun i => ?_⟩
  rw [lookup_renderStep, h1, h2, h3]
  by_cases hi : i < (parse_vulnerabilities report).length <;>
    simp [hi, List.lookup]

/-- Witness for the amended C5 at a concrete scan over a one-issue report
with no retained widget state. -/
theorem new_scan_resets_mapping_except_widget_state_witness :
    ("x = 1".toList ≠ ([] : List Char) ∧ "t".toList ≠ ([] : List Char)) ∧
    (scanStep "x = 1".toList "t".toList c5Report none initWorld).session.selected_issues = [] ∧
    ((renderStep (scanStep "x = 1".toList "t".toList c5Report none initWorld)).session.selected_issues.lookup 0
       = if 0 < (parse_vulnerabilities c5Report).length
         then some (checkboxResult initWorld.widgets 0
             ((parse_vulnerabilities c5Report).getD 0 []) false)
         else none) :=
  ⟨⟨by decide, by decide⟩,
   (new_scan_resets_mapping_except_widget_state initWorld "x = 1".toList
     "t".toList c5Report none (by decide) (by decide)).1,
   (new_scan_resets_mapping_except_widget_state initWorld "x = 1".toList
     "t".toList c5Report none (by decide) (by decide)).2 0⟩

theorem selectedOnes_enumFrom : ∀ (issues : List (List Char)) (s : Nat)
    (m : List (Nat × Bool)),
    (∀ i, i < issues.length → (m.lookup (s + i)).isSome = true) →
    selectedOnes issues s m
      = some (((List.enumFrom s issues).filter
          (fun p => m.lookup p.1 == some true)).map (fun p => p.2)) := by
  intro issues
  induction issues with
  | nil => intro s m _; simp [selectedOnes, List.enumFrom]
  | cons x xs ih =>
    intro s m hm
    have h0 : (m.lookup s).isSome = true := by
      have := hm 0 (by simp)
      simpa using this
    obtain ⟨b, hb⟩ := Option.isSome_iff_exists.mp h0
    have hrest := ih (s + 1) m (fun i hi => by
      have h := hm (i + 1) (by simp only [List.length_cons]; omega)
      have he : s + (i + 1) = s + 1 + i := by omega
      rw [he] at h
      exact h)
    simp only [selectedOnes, hb, hrest, List.enumFrom, List.filter_cons,
      List.map_cons]
    cases b
    · simp [hb]
    · simp [hb]

/-- C6: whenever every displayed issue index has an entry in the mapping
(which the render that displayed the issues establishes), the instruction
text handed to the rewrite collaborator is exactly the newline-joined
texts of the issues whose entry is true, taken from the current report's
parse in ascending index order. -/
theorem resolve_instructions_spec (s : AppState)
    (h : ∀ i, i < (parse_vulnerabilities s.vulnerability_report).length →
      (s.selected_issues.lookup i).isSome = true) :
    selectedInstr s
      = some (joinNL (((List.enum (parse_vulnerabilities s.vulnerability_report)).filter
          (fun p => s.selected_issues.lookup p.1 == some true)).map (fun p => p.2))) := by
  unfold selectedInstr
  rw [selectedOnes_enumFrom _ 0 _ (fun i hi => by simpa using h i hi)]
  simp [List.enum]

/-- Witness for C6: both issues of a two-issue report selected. -/
theorem resolve_instructions_spec_witness :
    (∀ i, i < (parse_vulnerabilities c6State.vulnerability_report).length →
      (c6State.selected_issues.lookup i).isSome = true) ∧
    selectedInstr c6State
      = some (joinNL (((List.enum (parse_vulnerabilities c6State.vulnerability_report)).filter
          (fun p => c6State.selected_issues.lookup p.1 == some true)).map (fun p => p.2))) :=
  ⟨by decide, resolve_instructions_spec c6State (by decide)⟩

/-- C7: a failing rewrite collaborator leaves the whole state unchanged:
the exception of line 232 aborts the run before lines 234-240, so
`issue_resolved` is not set, `fixed_code` is not overwritten, and no
submission with a populated output is persisted. -/
theorem resolve_error_leaves_state_unchanged (title : List Char)
    (uid : Option Nat) (err : List Char) (w : World) :
    resolveStep title uid (fun _ _ => Except.error err) w = w := by
  unfold resolveStep
  split
  · cases hsel : selectedInstr w.session <;> rfl
  · rfl

/-- C1 counterexample: two reachable states refute the claimed
equivalence in both directions.  After scanning a one-issue report,
rendering, and checking the issue, the `on_change` callback has computed
the flags from the pre-toggle mapping (all false), so an entry is true
while the gate is closed; after then unchecking the issue, the callback
saw the previous run's true entry, so the gate is open while no entry is
true. -/
theorem resolve_button_divergence_from_selection :
    (anySelected c1T1.session = true ∧ gateOpen c1T1.session = false) ∧
    (anySelected c1T2.session = false ∧ gateOpen c1T2.session = true) := by
  decide

/-- C1 amended: the gate of line 224 equals the two cached flags, and the
`on_change` callback that recomputes them runs before the rerun's
line-218 assignments — so after a toggle the gate equals "some entry is
true" of the mapping as the previous run left it, one interaction behind
the current mapping; moreover a scan (lines 185-189) clears the mapping
while leaving both flags untouched.  Visibility is therefore not a pure
function of the current mapping in either direction. -/
theorem resolve_gate_lags_selection (w : World) (i : Nat) (v : Bool) :
    ((toggleStep i v w).session.issues_selected = anySelected w.session ∧
     (toggleStep i v w).session.show_resolve_button = anySelected w.session ∧
     gateOpen (toggleStep i v w).session = anySelected w.session) ∧
    (∀ code title report uid, code ≠ [] → title ≠ [] →
      ((scanStep code title report uid w).session.selected_issues = [] ∧
       (scanStep code title report uid w).session.show_resolve_button
         = w.session.show_resolve_button ∧
       (scanStep code title report uid w).session.issues_selected
         = w.session.issues_selected)) := by
  constructor
  · refine ⟨?_, ?_, ?_⟩
    · rw [toggleStep, renderStep_issues_selected]
      rfl
    · rw [toggleStep, renderStep_show_button]
      rfl
    · unfold gateOpen
      rw [toggleStep, renderStep_issues_selected, renderStep_show_button]
      exact Bool.and_self _
  · intro code title report uid hc ht
    have hguard : (code ≠ [] ∧ title ≠ []) := ⟨hc, ht⟩
    unfold scanStep
    rw [if_pos hguard]
    exact ⟨rfl, rfl, rfl⟩

/-- Witness for the amended C1. -/
theorem resolve_gate_lags_selection_witness :
    (("c".toList ≠ ([] : List Char)) ∧ ("t".toList ≠ ([] : List Char))) ∧
    gateOpen (toggleStep 0 true initWorld).session = anySelected initWorld.session ∧
    (scanStep "c".toList "t".toList [] none initWorld).session.selected_issues = [] :=
  ⟨⟨by decide, by decide⟩,
   (resolve_gate_lags_selection initWorld 0 true).1.2.2,
   ((resolve_gate_lags_selection initWorld 0 true).2
     "c".toList "t".toList [] none (by decide) (by decide)).1⟩
